import Mathlib

/-!
Verification development for the `pyarea-ui` repository (`src/area.py`).

The program is a Tk form that stores rows of three text fields, parses them
to floats, sums `length * width * count`, converts the result to square feet
and saves/loads the rows with `pickle`.

Modelling conventions (shallow embedding):
* Python `float` values are modelled exactly: finite doubles become rationals
  (`ℚ`), and the special values `inf`, `-inf`, `nan` are explicit
  constructors of `PyFloat`.  Arithmetic on finite values is exact rational
  arithmetic (the claims below only involve values where double arithmetic
  is exact), and the special values follow the IEEE propagation rules.
* `tk.StringVar` contents are plain `String`s.
* Python's `dict` (insertion ordered) is an association list without
  duplicate keys; assigning to an existing key replaces the value in place,
  `del` removes the entry.
* `float(s)` on a string is modelled by `pyParseFloat` below, following the
  grammar accepted by CPython: optional surrounding whitespace, optional
  sign, then either `inf`/`infinity`/`nan` (case insensitive) or a decimal
  mantissa with optional exponent, with single underscores allowed strictly
  between digits.  Overflow to `inf` for huge literals is not modelled
  (values are exact rationals).
* `str(x)` on a float is modelled by `pyRepr`: the exact decimal expansion
  with at least one fractional digit, `inf`/`-inf`/`nan` for the special
  values.  (CPython prints the shortest decimal that reads back to the same
  double and switches to scientific notation for extreme magnitudes; both
  printers agree on every value appearing in the claims, and both satisfy
  the property the round-trip claim needs: parsing the printed text yields
  the original value.)
-/

namespace Area

/-- Python float values: exact rationals for finite doubles plus the three
special values. -/
inductive PyFloat where
  | finite (q : ℚ)
  | posInf
  | negInf
  | nan
deriving DecidableEq

namespace PyFloat

/-- IEEE multiplication on modelled floats (exact on finite values). -/
def mul : PyFloat → PyFloat → PyFloat
  | nan, _ => nan
  | _, nan => nan
  | finite a, finite b => finite (a * b)
  | finite a, posInf => if a = 0 then nan else if 0 < a then posInf else negInf
  | finite a, negInf => if a = 0 then nan else if 0 < a then negInf else posInf
  | posInf, finite b => if b = 0 then nan else if 0 < b then posInf else negInf
  | negInf, finite b => if b = 0 then nan else if 0 < b then negInf else posInf
  | posInf, posInf => posInf
  | posInf, negInf => negInf
  | negInf, posInf => negInf
  | negInf, negInf => posInf

/-- IEEE addition on modelled floats (exact on finite values). -/
def add : PyFloat → PyFloat → PyFloat
  | nan, _ => nan
  | _, nan => nan
  | finite a, finite b => finite (a + b)
  | finite _, posInf => posInf
  | finite _, negInf => negInf
  | posInf, finite _ => posInf
  | negInf, finite _ => negInf
  | posInf, posInf => posInf
  | posInf, negInf => nan
  | negInf, posInf => nan
  | negInf, negInf => posInf

/-- Negation, as applied by a leading `-` sign in `float(s)` (the sign of a
nan is not observable in the model). -/
def neg : PyFloat → PyFloat
  | finite q => finite (-q)
  | posInf => negInf
  | negInf => posInf
  | nan => nan

end PyFloat

/-! ## The string-to-float parser (model of Python's `float(str)`) -/

/-- Whitespace stripped by `float(s)` (ASCII part). -/
def isPyWs (c : Char) : Bool :=
  c = ' ' || c = '\t' || c = '\n' || c = '\r' || c = '\x0b' || c = '\x0c'

/-- Strip leading and trailing whitespace. -/
def pyStripWs (cs : List Char) : List Char :=
  ((cs.dropWhile isPyWs).reverse.dropWhile isPyWs).reverse

/-- Numeric value of one ASCII digit character. -/
def digitVal (c : Char) : ℕ := c.toNat - 48

/-- Numeric value of a most-significant-first digit string. -/
def digitsVal (cs : List Char) : ℕ :=
  cs.foldl (fun a c => a * 10 + digitVal c) 0

/-- Character allowed inside a digit run of a Python numeric literal. -/
def isDigitOrU (c : Char) : Bool := c.isDigit || c = '_'

/-- True when the list has no two consecutive underscores. -/
def noDoubleU : List Char → Bool
  | a :: b :: t => !(a = '_' && b = '_') && noDoubleU (b :: t)
  | _ => true

/-- First character is an ASCII digit. -/
def headDigit : List Char → Bool
  | c :: _ => c.isDigit
  | [] => false

/-- Well-formed digit run: nonempty, starts and ends with a digit, and no
two consecutive underscores, so every underscore sits between digits. -/
def uChunkOk (cs : List Char) : Bool :=
  headDigit cs && headDigit cs.reverse && noDoubleU cs

/-- Consume the maximal run of digits/underscores at the head.  Returns the
digits (underscores removed) and the remaining input; `none` when a run is
present but malformed (Python rejects the whole literal then). -/
def munchDigits (cs : List Char) : Option (List Char × List Char) :=
  let chunk := cs.takeWhile isDigitOrU
  if chunk = [] then some ([], cs)
  else if uChunkOk chunk then some (chunk.filter Char.isDigit, cs.dropWhile isDigitOrU)
  else none

/-- Mantissa continuation after the integer digits have been read. -/
def afterMantissa (intDs : List Char) (rest : List Char) : Option (ℚ × List Char) :=
  match rest with
  | [] => if intDs = [] then none else some ((digitsVal intDs : ℚ), [])
  | c :: rest2 =>
    if c = '.' then
      match munchDigits rest2 with
      | none => none
      | some (fracDs, rest3) =>
        if intDs = [] && fracDs = [] then none
        else some ((digitsVal (intDs ++ fracDs) : ℚ) / 10 ^ fracDs.length, rest3)
    else if intDs = [] then none else some ((digitsVal intDs : ℚ), c :: rest2)

/-- Parse `digits [ "." digits ]`, returning the value and the rest. -/
def parseMantissa (cs : List Char) : Option (ℚ × List Char) :=
  match munchDigits cs with
  | none => none
  | some (intDs, rest) => afterMantissa intDs rest

/-- Parse the characters after `e`/`E`: an optionally signed digit run that
must consume the whole rest of the input. -/
def parseExponentTail (cs : List Char) : Option ℤ :=
  let sr : Bool × List Char :=
    match cs with
    | c :: r => if c = '+' then (false, r) else if c = '-' then (true, r) else (false, c :: r)
    | [] => (false, [])
  match munchDigits sr.2 with
  | none => none
  | some (ds, rest) =>
    if rest = [] then
      if ds = [] then none
      else some (if sr.1 then -(digitsVal ds : ℤ) else (digitsVal ds : ℤ))
    else none

/-- Parse an unsigned numeric literal (mantissa, optional exponent) spanning
the whole input. -/
def parseNumeric (cs : List Char) : Option ℚ :=
  match parseMantissa cs with
  | none => none
  | some (m, rest) =>
    match rest with
    | [] => some m
    | c :: rest2 =>
      if c = 'e' || c = 'E' then
        (parseExponentTail rest2).map (fun ex => m * (10 : ℚ) ^ ex)
      else none

/-- Recognise `inf`, `infinity` and `nan`, case-insensitively, spanning the
whole input (the sign has already been removed). -/
def parseSpecial (cs : List Char) : Option PyFloat :=
  let ls := cs.map Char.toLower
  if ls = ['i', 'n', 'f'] || ls = ['i', 'n', 'f', 'i', 'n', 'i', 't', 'y'] then
    some PyFloat.posInf
  else if ls = ['n', 'a', 'n'] then some PyFloat.nan
  else none

/-- Parse the body after the optional sign. -/
def parseSigned (negSign : Bool) (body : List Char) : Option PyFloat :=
  match parseSpecial body with
  | some v => some (if negSign then v.neg else v)
  | none =>
    (parseNumeric body).map (fun q => PyFloat.finite (if negSign then -q else q))

/-- Parse a whitespace-stripped character list as Python's `float` does. -/
def pyParseFloatCore (cs : List Char) : Option PyFloat :=
  match cs with
  | [] => parseSigned false []
  | c :: r =>
    if c = '+' then parseSigned false r
    else if c = '-' then parseSigned true r
    else parseSigned false (c :: r)

/-- Model of Python's `float(s)` on strings: `none` models a raised
`ValueError`. -/
def pyParseFloat (s : String) : Option PyFloat :=
  pyParseFloatCore (pyStripWs s.data)

/-! ## The float-to-string printer (model of Python's `str(float)`) -/

/-- Base-10 digit characters of `n`, least significant first (empty for 0),
with an explicit fuel argument so that the recursion is structural. -/
def natDigitsCore : ℕ → ℕ → List Char
  | 0, _ => []
  | fuel + 1, n =>
    if n = 0 then [] else Char.ofNat (n % 10 + 48) :: natDigitsCore fuel (n / 10)

/-- Base-10 digit characters of `n`, least significant first (empty for 0).
`n` itself is always enough fuel since the value shrinks by a factor ten
each step. -/
def natDigitsAux (n : ℕ) : List Char := natDigitsCore n n

/-- Base-10 digit characters of `n`, most significant first (`"0"` for 0). -/
def natDigits (n : ℕ) : List Char :=
  if n = 0 then ['0'] else (natDigitsAux n).reverse

/-- Linear search for the least `k ≥ start` with `d ∣ 10 ^ k`, within
`fuel` steps (0 when the fuel runs out). -/
def decExpAux (d : ℕ) : ℕ → ℕ → ℕ
  | 0, _ => 0
  | fuel + 1, k => if d ∣ 10 ^ k then k else decExpAux d fuel (k + 1)

/-- Least `k` with `d ∣ 10 ^ k`, for `d` a divisor of a power of ten (such
a `k` always lies below `d + 1`, see `dvd_pow_ten_self`). -/
def decExponent (d : ℕ) : ℕ := decExpAux d (d + 1) 0

/-- Decimal expansion (digit characters) of a nonnegative rational whose
denominator divides a power of ten, with at least one fractional digit:
`26` becomes `26.0`, `3/100` becomes `0.03`. -/
def decReprPos (q : ℚ) : List Char :=
  let k := decExponent q.den
  let m := (q * 10 ^ k).num.toNat
  if k = 0 then natDigits m ++ ['.', '0']
  else
    let ds := natDigitsAux m
    let pds := ds ++ List.replicate (k + 1 - ds.length) '0'
    (pds.drop k).reverse ++ '.' :: (pds.take k).reverse

/-- Decimal expansion of a rational whose denominator divides a power of
ten (every finite double has this form). -/
def decRepr (q : ℚ) : String :=
  if q < 0 then String.mk ('-' :: decReprPos (-q)) else String.mk (decReprPos q)

/-- Model of Python's `str(x)` on floats; see the header comment for how it
relates to CPython's shortest-repr printer. -/
def pyRepr : PyFloat → String
  | .finite q => decRepr q
  | .posInf => "inf"
  | .negInf => "-inf"
  | .nan => "nan"

/-! ## The Row Store (`class Store` in `src/area.py`) -/

/-- Contents of the three `tk.StringVar`s of one row. -/
abbrev EntryRow := String × String × String

/-- One row of a snapshot (`InputRow` in the source). -/
abbrev Triple := PyFloat × PyFloat × PyFloat

/-- The `Store.storage` dict (`StorageType`): a Python dict is an
insertion-ordered mapping, modelled as an association list without
duplicate keys. -/
structure Store where
  storage : List (ℕ × EntryRow)
deriving DecidableEq

/-- Assignment `m[k] = v` on a Python dict: replaces in place when the key
is present, appends otherwise. -/
def dictInsert (m : List (ℕ × EntryRow)) (k : ℕ) (v : EntryRow) :
    List (ℕ × EntryRow) :=
  if m.any (fun p => p.1 = k) then m.map (fun p => if p.1 = k then (k, v) else p)
  else m ++ [(k, v)]

/-- A store with empty storage (`Store.__init__`). -/
def Store.empty : Store := ⟨[]⟩

/-- Model of `Store.add`: `id = len(self.storage); self.storage[id] = values`.
Returns the new store and the id captured by the returned `delete_row`
closure. -/
def Store.add (st : Store) (values : EntryRow) : Store × ℕ :=
  let id := st.storage.length
  (⟨dictInsert st.storage id values⟩, id)

/-- Model of the `destroy` closure produced by `Store.add`:
`del self.storage[id]`.  (`del` with an absent key raises `KeyError` before
any mutation, so the storage is unchanged in that case, which is what
removing nothing yields here.) -/
def Store.removeRow (st : Store) (id : ℕ) : Store :=
  ⟨st.storage.filter (fun p => !(p.1 = id : Bool))⟩

/-- Model of `Store.clear`. -/
def Store.clear (_st : Store) : Store := Store.empty

/-- Model of `Store.to_float`: `float(strvar.get())` with every exception
mapped to `0.0`.  Totality of this definition is the "never raises" part of
the specification. -/
def to_float (s : String) : PyFloat :=
  match pyParseFloat s with
  | some v => v
  | none => PyFloat.finite 0

/-- Parse the three fields of one row. -/
def toFloat3 (r : EntryRow) : Triple := (to_float r.1, to_float r.2.1, to_float r.2.2)

/-- Model of `Store.values`: the snapshot, in storage (insertion) order. -/
def Store.values (st : Store) : List Triple :=
  st.storage.map (fun p => toFloat3 p.2)

/-! ## Units and conversion (`Store.units`, `Window._convert_to_feet`) -/

namespace PyFloat

/-- Multiplication by a finite constant (used by the Centimeter entry of
the unit table). -/
def mulQ (v : PyFloat) (c : ℚ) : PyFloat := v.mul (finite c)

/-- Division by a finite nonzero constant (used by the Inches entry of the
unit table). -/
def divQ (v : PyFloat) (c : ℚ) : PyFloat :=
  match v with
  | finite a => finite (a / c)
  | posInf => if 0 < c then posInf else negInf
  | negInf => if 0 < c then negInf else posInf
  | nan => nan

end PyFloat

/-- One entry of the unit table. -/
structure UnitInfo where
  name : String
  symbol : String
  calcFn : PyFloat → PyFloat

/-- The literal `0.032808399` of the source. -/
def cmFactor : ℚ := 32808399 / 10 ^ 9

/-- Model of the `Store.units` property: the dict
`{0: Inches (x / 12**2), 1: Centimeter (x * 0.032808399**2)}`; indexing
with any other key raises `KeyError` (`none`). -/
def units (i : ℤ) : Option UnitInfo :=
  if i = 0 then some ⟨"Inches", "in", fun x => x.divQ (12 ^ 2)⟩
  else if i = 1 then some ⟨"Centimeter", "cm", fun x => x.mulQ (cmFactor ^ 2)⟩
  else none

/-- Round half to even to an integer (Python's rounding mode). -/
def roundHalfEven (x : ℚ) : ℤ :=
  let f : ℤ := x.num.fdiv (x.den : ℤ)
  let r : ℚ := x - (f : ℚ)
  if r < 1 / 2 then f
  else if 1 / 2 < r then f + 1
  else if f % 2 = 0 then f else f + 1

/-- Model of Python's `round(x, 2)` on finite floats, exact at the rational
level. -/
def pyRound2 (x : ℚ) : ℚ := (roundHalfEven (x * 100) : ℚ) / 100

/-- Model of Python's `round(x, 2)` on floats (`round` keeps the special
values unchanged). -/
def pyRound2F : PyFloat → PyFloat
  | .finite q => .finite (pyRound2 q)
  | v => v

/-- Model of `Window._convert_to_feet`:
`round(self._store.units[self.unit_id.get()]["calc"](value), 2)`. -/
def convert_to_feet (unit_id : ℤ) (value : PyFloat) : Option PyFloat :=
  (units unit_id).map (fun u => pyRound2F (u.calcFn value))

/-- Model of `Window._load_result`: the string
`"Square {}: {}, Square Feets: {}".format(unit name, result, converted)`. -/
def load_result (unit_id : ℤ) (result : PyFloat) : Option String :=
  (units unit_id).map (fun u =>
    "Square " ++ u.name ++ ": " ++ pyRepr result ++ ", Square Feets: " ++
      pyRepr (pyRound2F (u.calcFn result)))

/-! ## The calculator (`UI._calc`) -/

/-- Model of the summation loop of `UI._calc`:
`result = 0.0; for row in snapshot: result += row[0] * row[1] * row[2]`. -/
def UI_calc (rows : List Triple) : PyFloat :=
  rows.foldl (fun result row => result.add ((row.1.mul row.2.1).mul row.2.2))
    (PyFloat.finite 0)

/-! ## Rows, saving and loading (`Window._load_row`, `UI._save`, `UI._load`) -/

/-- Model of the local `e = lambda x: "" if x == 0.0 else str(x)` used by
`_load_row` to seed the entry texts. -/
def eText (x : PyFloat) : String :=
  if x = PyFloat.finite 0 then "" else pyRepr x

/-- Model of `Window._load_row`: unpack `(length, width, count)` when the
value list has exactly three elements (defaults `0.0, 0.0, 1.0` otherwise),
seed the entry texts through `e`, and add the row to the store. -/
def load_row (st : Store) (values : List PyFloat) : Store :=
  match values with
  | [a, b, c] => (st.add (eText a, eText b, eText c)).1
  | _ =>
    (st.add (eText (PyFloat.finite 0), eText (PyFloat.finite 0),
      eText (PyFloat.finite 1))).1

/-- Model of `UI._save`: `data = self._store.values()` followed by
`data.insert(0, (-1, -1, self.unit_id.get()))`; the resulting list is what
gets pickled. -/
def UI_save (st : Store) (unit_id : ℤ) : List Triple :=
  (PyFloat.finite (-1), PyFloat.finite (-1), PyFloat.finite (unit_id : ℚ)) ::
    st.values

/-- Model of Python `int(x)` on a float: truncation toward zero, raising
(`none`) on `inf` and `nan`. -/
def pyTrunc (q : ℚ) : ℤ := if 0 ≤ q then ⌊q⌋ else ⌈q⌉

/-- Model of `int` applied to a modelled float. -/
def pyInt : PyFloat → Option ℤ
  | .finite q => some (pyTrunc q)
  | _ => none

/-- Outcome of an event handler: `ok` when it returns normally (possibly
after catching an exception), `raised` when an exception escapes it; both
carry the store and unit index left behind. -/
inductive PyResult (α : Type) where
  | ok (a : α)
  | raised (a : α)
deriving DecidableEq

/-- Model of `UI._load` after the file dialog.  `pickled` is the result of
`pickle.load`: `none` when opening or unpickling raised (the handler prints
"Failed to load file" and returns, state unchanged).  Otherwise the code
runs `self._clear_input()` (which clears the store) *before* it evaluates
`data[0]`, `unit[2]` and `int(unit[2])`; each of those can raise
(`IndexError` on an empty document or short sentinel, `ValueError` /
`OverflowError` from `int` on `nan`/`inf`), and such an exception escapes
the handler with the store already cleared.  When the sentinel decodes, the
remaining rows are fed to `_load_row` in order. -/
def UI_load (st : Store) (unit_id : ℤ)
    (pickled : Option (List (List PyFloat))) : PyResult (Store × ℤ) :=
  match pickled with
  | none => PyResult.ok (st, unit_id)
  | some doc =>
    match doc with
    | [] => PyResult.raised (Store.empty, unit_id)
    | sentinel :: rows =>
      match sentinel.get? 2 with
      | none => PyResult.raised (Store.empty, unit_id)
      | some u =>
        match pyInt u with
        | none => PyResult.raised (Store.empty, unit_id)
        | some uid => PyResult.ok (rows.foldl load_row Store.empty, uid)

/-- Flatten a snapshot triple into the sequence read back by `_load`
(pickle round-trips the tuples; `_load` consumes them positionally). -/
def Triple.toList (t : Triple) : List PyFloat := [t.1, t.2.1, t.2.2]

/-! ## Keystroke validation (`Window._validate_entry`) -/

/-- Model of Python's `str.isdigit` (ASCII fragment): nonempty and all
digits. -/
def pyIsdigit (s : String) : Bool := !s.data.isEmpty && s.data.all Char.isDigit

/-- Decidable matcher for the regex `\d+\.?\d*` anchored at both ends, the
pattern `re.match`ed by `_validate_entry` (ASCII digits). -/
def matchD1 (cs : List Char) : Bool :=
  !(cs.takeWhile Char.isDigit).isEmpty &&
    (match cs.dropWhile Char.isDigit with
     | [] => true
     | c :: r => c = '.' && r.all Char.isDigit)

/-- Model of `Window._validate_entry new_val val key` (`%P`, `%s`, `%S`). -/
def validate_entry (new_val val key : String) : Bool :=
  let is_digit := pyIsdigit key
  if new_val = "" then true
  else if val = "" then is_digit
  else if !(is_digit || key = ".") then false
  else matchD1 new_val.data

/-- Decidable matcher for the pattern the specification describes:
"optional digits, optional single decimal point, optional trailing digits"
(`\d*\.?\d*` anchored at both ends). -/
def specPattern (cs : List Char) : Bool :=
  match cs.dropWhile Char.isDigit with
  | [] => true
  | c :: r => c = '.' && r.all Char.isDigit

/-! ## Helper lemmas about digit strings -/

lemma digitsVal_go (cs : List Char) :
    ∀ a : ℕ, cs.foldl (fun a c => a * 10 + digitVal c) a =
      a * 10 ^ cs.length + digitsVal cs := by
  induction cs with
  | nil => intro a; simp [digitsVal]
  | cons c t ih =>
    intro a
    simp only [List.foldl_cons, digitsVal, List.length_cons]
    rw [ih (a * 10 + digitVal c), ih (0 * 10 + digitVal c)]
    ring

lemma digitsVal_append (xs ys : List Char) :
    digitsVal (xs ++ ys) = digitsVal xs * 10 ^ ys.length + digitsVal ys := by
  simp only [digitsVal, List.foldl_append]
  rw [digitsVal_go]
  rfl

lemma digitsVal_cons (c : Char) (t : List Char) :
    digitsVal (c :: t) = digitVal c * 10 ^ t.length + digitsVal t := by
  simp only [digitsVal, List.foldl_cons]
  rw [digitsVal_go]
  simp only [digitsVal]
  ring

lemma digitsVal_replicate_zero (j : ℕ) :
    digitsVal (List.replicate j '0') = 0 := by
  induction j with
  | zero => rfl
  | succ n ih =>
    rw [List.replicate_succ, digitsVal_cons, ih]
    simp [digitVal]

lemma natDigitsCore_digits :
    ∀ fuel n : ℕ, ∀ c ∈ natDigitsCore fuel n, c.isDigit = true := by
  intro fuel
  induction fuel with
  | zero =>
    intro n c hc
    simp [natDigitsCore] at hc
  | succ f ih =>
    intro n c hc
    by_cases h0 : n = 0
    · rw [show natDigitsCore (f + 1) n =
        (if n = 0 then [] else Char.ofNat (n % 10 + 48) :: natDigitsCore f (n / 10))
        from rfl, if_pos h0] at hc
      simp at hc
    · rw [show natDigitsCore (f + 1) n =
        (if n = 0 then [] else Char.ofNat (n % 10 + 48) :: natDigitsCore f (n / 10))
        from rfl, if_neg h0] at hc
      rcases List.mem_cons.mp hc with rfl | hc
      · have h10 : n % 10 < 10 := Nat.mod_lt _ (by norm_num)
        revert h10
        generalize n % 10 = r
        intro h10
        interval_cases r <;> decide
      · exact ih (n / 10) c hc

lemma natDigitsAux_digits (m : ℕ) : ∀ c ∈ natDigitsAux m, c.isDigit = true :=
  natDigitsCore_digits m m

lemma natDigitsAux_ne_nil (m : ℕ) (h : m ≠ 0) : natDigitsAux m ≠ [] := by
  obtain ⟨k, rfl⟩ := Nat.exists_eq_succ_of_ne_zero h
  show (if k + 1 = 0 then []
    else Char.ofNat ((k + 1) % 10 + 48) :: natDigitsCore k ((k + 1) / 10)) ≠ []
  rw [if_neg (Nat.succ_ne_zero k)]
  simp

lemma digitsVal_natDigitsCore :
    ∀ fuel n : ℕ, n ≤ fuel → digitsVal (natDigitsCore fuel n).reverse = n := by
  intro fuel
  induction fuel with
  | zero =>
    intro n h
    interval_cases n
    rfl
  | succ f ih =>
    intro n h
    show digitsVal (if n = 0 then []
      else Char.ofNat (n % 10 + 48) :: natDigitsCore f (n / 10)).reverse = n
    split
    · rename_i h0
      rw [h0]
      rfl
    · rename_i h0
      have hdiv : n / 10 < n := Nat.div_lt_self (Nat.pos_of_ne_zero h0) (by norm_num)
      rw [List.reverse_cons, digitsVal_append, ih (n / 10) (by omega)]
      have hc : digitsVal [Char.ofNat (n % 10 + 48)] = n % 10 := by
        have h10 : n % 10 < 10 := Nat.mod_lt _ (by norm_num)
        revert h10
        generalize n % 10 = r
        intro h10
        interval_cases r <;> decide
      rw [hc]
      simp only [List.length_cons, List.length_nil, pow_one, zero_add]
      omega

lemma digitsVal_natDigitsAux (m : ℕ) :
    digitsVal (natDigitsAux m).reverse = m :=
  digitsVal_natDigitsCore m m le_rfl

lemma digitsVal_natDigits (m : ℕ) : digitsVal (natDigits m) = m := by
  unfold natDigits
  split
  · rename_i h
    rw [h]
    decide
  · exact digitsVal_natDigitsAux m

lemma natDigits_digits (m : ℕ) : ∀ c ∈ natDigits m, c.isDigit = true := by
  unfold natDigits
  split
  · intro c hc
    simp only [List.mem_singleton] at hc
    rw [hc]
    decide
  · intro c hc
    exact natDigitsAux_digits m c (List.mem_reverse.mp hc)

lemma natDigits_ne_nil (m : ℕ) : natDigits m ≠ [] := by
  unfold natDigits
  split
  · simp
  · rename_i h
    simpa using natDigitsAux_ne_nil m h

/-! ## Helper lemmas about digit runs and `munchDigits` -/

lemma takeWhile_all_append (p : Char → Bool) (ds rest : List Char)
    (h : ∀ c ∈ ds, p c = true) :
    (ds ++ rest).takeWhile p = ds ++ rest.takeWhile p ∧
      (ds ++ rest).dropWhile p = rest.dropWhile p := by
  induction ds with
  | nil => simp
  | cons c t ih =>
    have hc : p c = true := h c (List.mem_cons_self c t)
    have ht : ∀ x ∈ t, p x = true := fun x hx => h x (List.mem_cons_of_mem _ hx)
    refine ⟨?_, ?_⟩ <;>
      simp [List.takeWhile_cons, List.dropWhile_cons, hc, (ih ht).1, (ih ht).2]

lemma noDoubleU_of_no_underscore :
    ∀ cs : List Char, (∀ c ∈ cs, ¬c = '_') → noDoubleU cs = true := by
  intro cs
  induction cs with
  | nil => intro _; rfl
  | cons a t ih =>
    intro h
    cases t with
    | nil => rfl
    | cons b t2 =>
      have ha : ¬a = '_' := h a (by simp)
      have hrec : noDoubleU (b :: t2) = true :=
        ih (fun c hc => h c (List.mem_cons_of_mem _ hc))
      simp [noDoubleU, ha, hrec]

lemma uChunkOk_all_digits (ds : List Char) (hne : ds ≠ [])
    (h : ∀ c ∈ ds, c.isDigit = true) : uChunkOk ds = true := by
  have h1 : headDigit ds = true := by
    cases ds with
    | nil => exact absurd rfl hne
    | cons c t => exact h c (by simp)
  have h2 : headDigit ds.reverse = true := by
    cases hr : ds.reverse with
    | nil =>
      exact absurd (by simpa using congrArg List.reverse hr) hne
    | cons c t =>
      have hmem : c ∈ ds := by
        have : c ∈ ds.reverse := by rw [hr]; simp
        simpa using this
      exact h c hmem
  have h3 : noDoubleU ds = true :=
    noDoubleU_of_no_underscore ds (fun c hc heq => by
      have hd := h c hc
      rw [heq] at hd
      exact absurd hd (by decide))
  simp [uChunkOk, h1, h2, h3]

lemma munchDigits_all (ds : List Char) (hne : ds ≠ [])
    (h : ∀ c ∈ ds, c.isDigit = true) : munchDigits ds = some (ds, []) := by
  have hall : ∀ x ∈ ds, isDigitOrU x = true := fun x hx => by
    simp [isDigitOrU, h x hx]
  have ht := takeWhile_all_append isDigitOrU ds [] hall
  simp only [List.append_nil] at ht
  unfold munchDigits
  rw [ht.1, ht.2]
  simp only [List.takeWhile_nil, List.dropWhile_nil, List.append_nil]
  rw [if_neg hne, if_pos (uChunkOk_all_digits ds hne h)]
  rw [List.filter_eq_self.mpr h]

lemma munchDigits_dot (ds rest : List Char) (c : Char) (hne : ds ≠ [])
    (h : ∀ x ∈ ds, x.isDigit = true) (hc : isDigitOrU c = false) :
    munchDigits (ds ++ c :: rest) = some (ds, c :: rest) := by
  have hall : ∀ x ∈ ds, isDigitOrU x = true := fun x hx => by
    simp [isDigitOrU, h x hx]
  have ht := takeWhile_all_append isDigitOrU ds (c :: rest) hall
  unfold munchDigits
  rw [ht.1, ht.2]
  rw [List.takeWhile_cons, List.dropWhile_cons]
  simp only [hc, if_false, Bool.false_eq_true, List.append_nil]
  rw [if_neg hne, if_pos (uChunkOk_all_digits ds hne h)]
  rw [List.filter_eq_self.mpr h]

/-! ## Helper lemmas: running the parser on a printed decimal -/

lemma isPyWs_false_of_digit (c : Char) (h : c.isDigit = true) :
    isPyWs c = false := by
  by_contra hne
  have hw : isPyWs c = true := by
    cases hb : isPyWs c
    · exact absurd hb hne
    · rfl
  unfold isPyWs at hw
  simp only [Bool.or_eq_true, decide_eq_true_eq] at hw
  rcases hw with ((((rfl | rfl) | rfl) | rfl) | rfl) | rfl <;> exact absurd h (by decide)

lemma dropWhile_eq_self_of_all (p : Char → Bool) (cs : List Char)
    (h : ∀ c ∈ cs, p c = false) : cs.dropWhile p = cs := by
  cases cs with
  | nil => rfl
  | cons c t =>
    rw [List.dropWhile_cons, if_neg (by simp [h c (List.mem_cons_self c t)])]

lemma pyStripWs_eq_self (cs : List Char) (h : ∀ c ∈ cs, isPyWs c = false) :
    pyStripWs cs = cs := by
  unfold pyStripWs
  rw [dropWhile_eq_self_of_all _ _ h,
    dropWhile_eq_self_of_all _ _ (fun c hc => h c (List.mem_reverse.mp hc)),
    List.reverse_reverse]

lemma parseSpecial_none_of_dot (cs : List Char) (h : '.' ∈ cs) :
    parseSpecial cs = none := by
  have hmem : '.' ∈ cs.map Char.toLower := List.mem_map.mpr ⟨'.', h, by decide⟩
  have h1 : ¬(cs.map Char.toLower = ['i', 'n', 'f'] ∨
      cs.map Char.toLower = ['i', 'n', 'f', 'i', 'n', 'i', 't', 'y']) := by
    rintro (heq | heq) <;> (rw [heq] at hmem; exact absurd hmem (by decide))
  have h2 : ¬cs.map Char.toLower = ['n', 'a', 'n'] := by
    intro heq
    rw [heq] at hmem
    exact absurd hmem (by decide)
  unfold parseSpecial
  rw [if_neg (by simpa using h1), if_neg (by simpa using h2)]

lemma parseNumeric_digits (D1 D2 : List Char) (h1 : D1 ≠ []) (h2 : D2 ≠ [])
    (hd1 : ∀ c ∈ D1, c.isDigit = true) (hd2 : ∀ c ∈ D2, c.isDigit = true) :
    parseNumeric (D1 ++ '.' :: D2) =
      some ((digitsVal (D1 ++ D2) : ℚ) / 10 ^ D2.length) := by
  have hmd := munchDigits_dot D1 D2 '.' h1 hd1 (by decide)
  have hma := munchDigits_all D2 h2 hd2
  unfold parseNumeric parseMantissa
  rw [hmd]
  simp [afterMantissa, hma, h1, h2]

lemma pyParseFloatCore_digits (D1 D2 : List Char) (h1 : D1 ≠ []) (h2 : D2 ≠ [])
    (hd1 : ∀ c ∈ D1, c.isDigit = true) (hd2 : ∀ c ∈ D2, c.isDigit = true) :
    pyParseFloatCore (D1 ++ '.' :: D2) =
      some (PyFloat.finite ((digitsVal (D1 ++ D2) : ℚ) / 10 ^ D2.length)) := by
  obtain ⟨d, D1x, rfl⟩ : ∃ d D1x, D1 = d :: D1x := by
    cases D1 with
    | nil => exact absurd rfl h1
    | cons d t => exact ⟨d, t, rfl⟩
  have hd : d.isDigit = true := hd1 d (List.mem_cons_self _ _)
  have hplus : ¬d = '+' := fun he => by rw [he] at hd; exact absurd hd (by decide)
  have hminus : ¬d = '-' := fun he => by rw [he] at hd; exact absurd hd (by decide)
  have hnum := parseNumeric_digits (d :: D1x) D2 h1 h2 hd1 hd2
  have hsp : parseSpecial (d :: (D1x ++ '.' :: D2)) = none :=
    parseSpecial_none_of_dot _ (by simp)
  show pyParseFloatCore (d :: (D1x ++ '.' :: D2)) = _
  simp only [pyParseFloatCore, if_neg hplus, if_neg hminus, parseSigned, hsp,
    List.cons_append] at hnum ⊢
  rw [hnum]
  simp

/-! ## Helper lemmas: denominators of parsed values divide a power of ten -/

/-- Values representable with a power-of-ten denominator: every value the
parser can produce, and every finite double, has this form. -/
def denDvdPow (q : ℚ) : Prop := ∃ m : ℕ, q.den ∣ 10 ^ m

lemma denDvdPow_natCast (n : ℕ) : denDvdPow (n : ℚ) :=
  ⟨0, by simp [Rat.den_natCast]⟩

lemma den_div_pow_ten (z : ℤ) (f : ℕ) : ((z : ℚ) / 10 ^ f).den ∣ 10 ^ f := by
  have h := Rat.den_dvd z ((10 : ℤ) ^ f)
  rw [Rat.divInt_eq_div] at h
  have he : ((z : ℚ) / (((10 : ℤ) ^ f : ℤ) : ℚ)) = (z : ℚ) / 10 ^ f := by
    push_cast
    ring
  rw [he] at h
  have h2 : (((z : ℚ) / 10 ^ f).den : ℤ) ∣ ((10 ^ f : ℕ) : ℤ) := by
    push_cast
    exact h
  exact_mod_cast h2

lemma denDvdPow_div_pow (n f : ℕ) : denDvdPow ((n : ℚ) / 10 ^ f) := by
  refine ⟨f, ?_⟩
  have h := den_div_pow_ten (n : ℤ) f
  have he : ((n : ℤ) : ℚ) = (n : ℚ) := by push_cast; ring
  rwa [he] at h

lemma denDvdPow_neg (q : ℚ) (h : denDvdPow q) : denDvdPow (-q) := by
  obtain ⟨m, hm⟩ := h
  exact ⟨m, by rwa [Rat.den_neg_eq_den]⟩

lemma denDvdPow_mul_zpow (q : ℚ) (h : denDvdPow q) (ex : ℤ) :
    denDvdPow (q * (10 : ℚ) ^ ex) := by
  obtain ⟨m, hm⟩ := h
  cases ex with
  | ofNat t =>
    refine ⟨m, ?_⟩
    have hz : (10 : ℚ) ^ (Int.ofNat t) = ((10 ^ t : ℕ) : ℚ) := by
      push_cast
      exact zpow_natCast 10 t
    rw [hz]
    have hd := Rat.mul_den_dvd q ((10 ^ t : ℕ) : ℚ)
    rw [Rat.den_natCast, mul_one] at hd
    exact hd.trans hm
  | negSucc t =>
    refine ⟨m + (t + 1), ?_⟩
    have hz : (10 : ℚ) ^ (Int.negSucc t) = (1 : ℚ) / 10 ^ (t + 1) := by
      rw [zpow_negSucc, one_div]
    rw [hz]
    have hd := Rat.mul_den_dvd q ((1 : ℚ) / 10 ^ (t + 1))
    have h2 : ((1 : ℚ) / 10 ^ (t + 1)).den ∣ 10 ^ (t + 1) := by
      have := den_div_pow_ten 1 (t + 1)
      simpa using this
    calc (q * ((1 : ℚ) / 10 ^ (t + 1))).den
        ∣ q.den * ((1 : ℚ) / 10 ^ (t + 1)).den := hd
      _ ∣ 10 ^ m * 10 ^ (t + 1) := mul_dvd_mul hm h2
      _ = 10 ^ (m + (t + 1)) := (pow_add 10 m (t + 1)).symm

lemma afterMantissa_den (intDs rest : List Char) (q : ℚ) (r : List Char)
    (h : afterMantissa intDs rest = some (q, r)) : denDvdPow q := by
  cases rest with
  | nil =>
    have h2 : (if intDs = [] then none
        else some ((digitsVal intDs : ℚ), ([] : List Char))) = some (q, r) := h
    by_cases hi : intDs = []
    · rw [if_pos hi] at h2
      exact absurd h2 (by simp)
    · rw [if_neg hi] at h2
      have hq : (digitsVal intDs : ℚ) = q := congrArg Prod.fst (Option.some.inj h2)
      rw [← hq]
      exact denDvdPow_natCast _
  | cons c rest2 =>
    have h2 : (if c = '.' then
        match munchDigits rest2 with
        | none => none
        | some (fracDs, rest3) =>
          if intDs = [] && fracDs = [] then none
          else some ((digitsVal (intDs ++ fracDs) : ℚ) / 10 ^ fracDs.length, rest3)
        else if intDs = [] then none
        else some ((digitsVal intDs : ℚ), c :: rest2)) = some (q, r) := h
    by_cases hc : c = '.'
    · rw [if_pos hc] at h2
      cases hm : munchDigits rest2 with
      | none =>
        rw [hm] at h2
        exact absurd h2 (by simp)
      | some fr =>
        obtain ⟨fracDs, rest3⟩ := fr
        rw [hm] at h2
        have h3 : (if intDs = [] && fracDs = [] then none
            else some ((digitsVal (intDs ++ fracDs) : ℚ) / 10 ^ fracDs.length,
              rest3)) = some (q, r) := h2
        split at h3
        · exact absurd h3 (by simp)
        · have hq : (digitsVal (intDs ++ fracDs) : ℚ) / 10 ^ fracDs.length = q :=
            congrArg Prod.fst (Option.some.inj h3)
          rw [← hq]
          exact denDvdPow_div_pow _ _
    · rw [if_neg hc] at h2
      by_cases hi : intDs = []
      · rw [if_pos hi] at h2
        exact absurd h2 (by simp)
      · rw [if_neg hi] at h2
        have hq : (digitsVal intDs : ℚ) = q := congrArg Prod.fst (Option.some.inj h2)
        rw [← hq]
        exact denDvdPow_natCast _

lemma parseNumeric_den (cs : List Char) (q : ℚ) (h : parseNumeric cs = some q) :
    denDvdPow q := by
  unfold parseNumeric at h
  split at h
  · exact absurd h (by simp)
  · rename_i mr m rest hpm
    have hm : denDvdPow m := by
      unfold parseMantissa at hpm
      split at hpm
      · exact absurd hpm (by simp)
      · rename_i ir i r hmd
        exact afterMantissa_den i r m rest hpm
    cases rest with
    | nil =>
      have h2 : some m = some q := h
      rw [← Option.some.inj h2]
      exact hm
    | cons c rest2 =>
      have h2 : (if c = 'e' || c = 'E' then
          (parseExponentTail rest2).map (fun ex => m * (10 : ℚ) ^ ex)
          else none) = some q := h
      split at h2
      · cases hex : parseExponentTail rest2 with
        | none =>
          rw [hex] at h2
          exact absurd h2 (by simp)
        | some ex =>
          rw [hex] at h2
          have h3 : some (m * (10 : ℚ) ^ ex) = some q := h2
          rw [← Option.some.inj h3]
          exact denDvdPow_mul_zpow m hm ex
      · exact absurd h2 (by simp)

lemma parseSpecial_special (cs : List Char) (v : PyFloat)
    (h : parseSpecial cs = some v) : v = PyFloat.posInf ∨ v = PyFloat.nan := by
  unfold parseSpecial at h
  by_cases h1 : (cs.map Char.toLower = ['i', 'n', 'f'] ∨
      cs.map Char.toLower = ['i', 'n', 'f', 'i', 'n', 'i', 't', 'y'])
  · rw [if_pos (by simpa using h1)] at h
    exact Or.inl (Option.some.inj h).symm
  · rw [if_neg (by simpa using h1)] at h
    by_cases h2 : cs.map Char.toLower = ['n', 'a', 'n']
    · rw [if_pos (by simpa using h2)] at h
      exact Or.inr (Option.some.inj h).symm
    · rw [if_neg (by simpa using h2)] at h
      exact absurd h (by simp)

/-- Every value produced by the modelled `float(str)` is representable. -/
def goodVal : PyFloat → Prop
  | .finite q => denDvdPow q
  | _ => True

lemma parseSigned_good (b : Bool) (cs : List Char) (v : PyFloat)
    (h : parseSigned b cs = some v) : goodVal v := by
  unfold parseSigned at h
  cases hs : parseSpecial cs with
  | some w =>
    rw [hs] at h
    have h2 : some (if b then w.neg else w) = some v := h
    rcases parseSpecial_special cs w hs with rfl | rfl <;>
      (rw [← Option.some.inj h2]; cases b <;> simp [goodVal, PyFloat.neg])
  | none =>
    rw [hs] at h
    cases hn : parseNumeric cs with
    | none =>
      rw [hn] at h
      exact absurd h (by simp)
    | some q =>
      rw [hn] at h
      have h2 : some (PyFloat.finite (if b then -q else q)) = some v := h
      rw [← Option.some.inj h2]
      have hq := parseNumeric_den cs q hn
      cases b
      · simpa [goodVal] using hq
      · simpa [goodVal] using denDvdPow_neg q hq

lemma pyParseFloat_good (s : String) (v : PyFloat)
    (h : pyParseFloat s = some v) : goodVal v := by
  unfold pyParseFloat pyParseFloatCore at h
  generalize pyStripWs s.data = ws at h
  cases ws with
  | nil => exact parseSigned_good false [] v h
  | cons c r =>
    have h2 : (if c = '+' then parseSigned false r
        else if c = '-' then parseSigned true r
        else parseSigned false (c :: r)) = some v := h
    split at h2
    · exact parseSigned_good false r v h2
    · split at h2
      · exact parseSigned_good true r v h2
      · exact parseSigned_good false (c :: r) v h2

lemma to_float_good (s : String) : goodVal (to_float s) := by
  unfold to_float
  cases hp : pyParseFloat s with
  | none => exact ⟨0, by norm_num⟩
  | some v => exact pyParseFloat_good s v hp

/-! ## Helper lemmas: the printed decimal exponent -/

lemma dvd_pow_ten_self : ∀ d : ℕ, (∃ m, d ∣ 10 ^ m) → d ∣ 10 ^ d := by
  intro d
  induction d using Nat.strong_induction_on with
  | _ d ih =>
    rintro ⟨m, hm⟩
    rcases Nat.eq_zero_or_pos d with rfl | hd0
    · exact absurd (Nat.eq_zero_of_zero_dvd hm) (by positivity)
    by_cases h2 : 2 ∣ d
    · obtain ⟨e, rfl⟩ := h2
      have he0 : e ≠ 0 := by rintro rfl; simp at hd0
      have hlt : e < 2 * e := by omega
      have hdvd : e ∣ 10 ^ m := dvd_trans ⟨2, by ring⟩ hm
      have ihe := ih e hlt ⟨m, hdvd⟩
      have step : 2 * e ∣ 10 ^ (e + 1) := by
        rw [pow_succ, mul_comm 2 e]
        exact mul_dvd_mul ihe (by norm_num)
      exact step.trans (pow_dvd_pow 10 (by omega))
    by_cases h5 : 5 ∣ d
    · obtain ⟨e, rfl⟩ := h5
      have he0 : e ≠ 0 := by rintro rfl; simp at hd0
      have hlt : e < 5 * e := by omega
      have hdvd : e ∣ 10 ^ m := dvd_trans ⟨5, by ring⟩ hm
      have ihe := ih e hlt ⟨m, hdvd⟩
      have step : 5 * e ∣ 10 ^ (e + 1) := by
        rw [pow_succ, mul_comm 5 e]
        exact mul_dvd_mul ihe (by norm_num)
      exact step.trans (pow_dvd_pow 10 (by omega))
    · have c2 : Nat.Coprime d 2 := ((Nat.Prime.coprime_iff_not_dvd Nat.prime_two).mpr h2).symm
      have c5 : Nat.Coprime d 5 :=
        ((Nat.Prime.coprime_iff_not_dvd (by norm_num : Nat.Prime 5)).mpr h5).symm
      have c10 : Nat.Coprime d 10 := by
        have h10 : (10 : ℕ) = 2 * 5 := by norm_num
        rw [h10]
        exact Nat.Coprime.mul_right c2 c5
      have hone := Nat.Coprime.eq_one_of_dvd (Nat.Coprime.pow_right m c10) hm
      rw [hone]
      exact one_dvd _

lemma decExpAux_dvd (d : ℕ) :
    ∀ fuel k j : ℕ, k ≤ j → j < k + fuel → d ∣ 10 ^ j →
      d ∣ 10 ^ decExpAux d fuel k := by
  intro fuel
  induction fuel with
  | zero => intro k j h1 h2 _; omega
  | succ n ih =>
    intro k j h1 h2 h3
    show d ∣ 10 ^ (if d ∣ 10 ^ k then k else decExpAux d n (k + 1))
    split
    · assumption
    · rename_i hnd
      have hkj : k ≠ j := fun he => hnd (he ▸ h3)
      exact ih (k + 1) j (by omega) (by omega) h3

lemma decExponent_dvd (d : ℕ) (h : ∃ m, d ∣ 10 ^ m) :
    d ∣ 10 ^ decExponent d := by
  unfold decExponent
  exact decExpAux_dvd d (d + 1) 0 d (Nat.zero_le d) (by omega) (dvd_pow_ten_self d h)

/-! ## Helper lemmas: `float(str(x)) = x` for representable values -/

lemma mul_pow_ten_den_one (q : ℚ) (k : ℕ) (h : q.den ∣ 10 ^ k) :
    (q * 10 ^ k).den = 1 := by
  obtain ⟨c, hc⟩ := h
  have hden : (q.den : ℚ) ≠ 0 := by exact_mod_cast q.den_nz
  have h10 : ((10 : ℚ)) ^ k = (q.den : ℚ) * (c : ℚ) := by
    have hcast : ((10 ^ k : ℕ) : ℚ) = ((q.den * c : ℕ) : ℚ) := by
      exact_mod_cast congrArg (fun n : ℕ => (n : ℚ)) hc
    push_cast at hcast
    simpa using hcast
  have hq : q = (q.num : ℚ) / (q.den : ℚ) := (Rat.num_div_den q).symm
  have key : q * 10 ^ k = ((q.num * c : ℤ) : ℚ) := by
    calc q * 10 ^ k = ((q.num : ℚ) / (q.den : ℚ)) * ((q.den : ℚ) * (c : ℚ)) := by
          rw [← hq, ← h10]
      _ = (q.num : ℚ) * (c : ℚ) * ((q.den : ℚ) / (q.den : ℚ)) := by ring
      _ = (q.num : ℚ) * (c : ℚ) := by rw [div_self hden, mul_one]
      _ = ((q.num * c : ℤ) : ℚ) := by push_cast; ring
  rw [key, Rat.den_intCast]

lemma mul_pow_ten_eq_num (q : ℚ) (k : ℕ) (h : q.den ∣ 10 ^ k) :
    q * 10 ^ k = (((q * 10 ^ k).num : ℤ) : ℚ) := by
  have hd := mul_pow_ten_den_one q k h
  conv_lhs => rw [← Rat.num_div_den (q * 10 ^ k)]
  rw [hd]
  simp

lemma decReprPos_if_zero (q : ℚ) (h : decExponent q.den = 0) :
    decReprPos q =
      natDigits ((q * 10 ^ decExponent q.den).num.toNat) ++ ['.', '0'] := by
  simp only [decReprPos]
  rw [if_pos h]

lemma decReprPos_if_pos (q : ℚ) (h : ¬decExponent q.den = 0) :
    decReprPos q =
      ((natDigitsAux ((q * 10 ^ decExponent q.den).num.toNat) ++
          List.replicate (decExponent q.den + 1 -
            (natDigitsAux ((q * 10 ^ decExponent q.den).num.toNat)).length)
            '0').drop (decExponent q.den)).reverse ++
        '.' :: ((natDigitsAux ((q * 10 ^ decExponent q.den).num.toNat) ++
          List.replicate (decExponent q.den + 1 -
            (natDigitsAux ((q * 10 ^ decExponent q.den).num.toNat)).length)
            '0').take (decExponent q.den)).reverse := by
  simp only [decReprPos]
  rw [if_neg h]

lemma decReprPos_spec (q : ℚ) (h0 : 0 ≤ q) (h : ∃ m, q.den ∣ 10 ^ m) :
    ∃ D1 D2 : List Char, decReprPos q = D1 ++ '.' :: D2 ∧ D1 ≠ [] ∧ D2 ≠ [] ∧
      (∀ c ∈ D1, c.isDigit = true) ∧ (∀ c ∈ D2, c.isDigit = true) ∧
      (digitsVal (D1 ++ D2) : ℚ) / 10 ^ D2.length = q := by
  obtain ⟨k, hkdef⟩ : ∃ k, decExponent q.den = k := ⟨_, rfl⟩
  have hk : q.den ∣ 10 ^ k := hkdef ▸ decExponent_dvd q.den h
  obtain ⟨m, hmdef⟩ : ∃ m, (q * 10 ^ k).num.toNat = m := ⟨_, rfl⟩
  have hnum0 : 0 ≤ (q * 10 ^ k).num :=
    Rat.num_nonneg.mpr (mul_nonneg h0 (by positivity))
  have hmq : ((m : ℕ) : ℚ) = q * 10 ^ k := by
    conv_rhs => rw [mul_pow_ten_eq_num q k hk]
    rw [← hmdef]
    exact_mod_cast Int.toNat_of_nonneg hnum0
  by_cases hk0 : k = 0
  · refine ⟨natDigits m, ['0'], ?_, natDigits_ne_nil m, by simp,
      natDigits_digits m, ?_, ?_⟩
    · rw [decReprPos_if_zero q (hkdef.trans hk0), hkdef, hmdef]
    · intro c hc
      simp only [List.mem_singleton] at hc
      rw [hc]
      decide
    · have hdv : digitsVal (natDigits m ++ ['0']) = m * 10 := by
        rw [digitsVal_append, digitsVal_natDigits]
        have h01 : digitsVal ['0'] = 0 := by decide
        rw [h01]
        simp
      rw [hdv]
      have hmq0 : ((m : ℕ) : ℚ) = q := by
        rw [hmq, hk0]
        simp
      rw [show (['0'] : List Char).length = 1 from rfl, pow_one,
        div_eq_iff (by norm_num : (10 : ℚ) ≠ 0)]
      rw [← hmq0]
      push_cast
      ring
  · have hdigits : ∀ c ∈ natDigitsAux m ++
        List.replicate (k + 1 - (natDigitsAux m).length) '0', c.isDigit = true := by
      intro c hc
      rcases List.mem_append.mp hc with hc | hc
      · exact natDigitsAux_digits m c hc
      · rw [List.eq_of_mem_replicate hc]
        decide
    refine ⟨((natDigitsAux m ++
        List.replicate (k + 1 - (natDigitsAux m).length) '0').drop k).reverse,
      ((natDigitsAux m ++
        List.replicate (k + 1 - (natDigitsAux m).length) '0').take k).reverse,
      ?_, ?_, ?_, ?_, ?_, ?_⟩
    · rw [decReprPos_if_pos q (by rw [hkdef]; exact hk0), hkdef, hmdef]
    · apply List.ne_nil_of_length_pos
      simp only [List.length_reverse, List.length_drop, List.length_append,
        List.length_replicate]
      omega
    · apply List.ne_nil_of_length_pos
      simp only [List.length_reverse, List.length_take, List.length_append,
        List.length_replicate]
      omega
    · intro c hc
      exact hdigits c (List.mem_of_mem_drop (List.mem_reverse.mp hc))
    · intro c hc
      exact hdigits c (List.mem_of_mem_take (List.mem_reverse.mp hc))
    · set pds := natDigitsAux m ++
        List.replicate (k + 1 - (natDigitsAux m).length) '0' with hpds
      have happ : (pds.drop k).reverse ++ (pds.take k).reverse = pds.reverse := by
        rw [← List.reverse_append, List.take_append_drop]
      rw [happ]
      have hrev : pds.reverse =
          List.replicate (k + 1 - (natDigitsAux m).length) '0' ++
            (natDigitsAux m).reverse := by
        rw [hpds, List.reverse_append, List.reverse_replicate]
      rw [hrev, digitsVal_append, digitsVal_replicate_zero,
        digitsVal_natDigitsAux]
      simp only [List.length_reverse, List.length_take, List.length_append,
        List.length_replicate, zero_mul, zero_add, hpds]
      have hminEq : min k ((natDigitsAux m).length +
          (k + 1 - (natDigitsAux m).length)) = k := by omega
      rw [hminEq, div_eq_iff (by positivity : ((10 : ℚ)) ^ k ≠ 0)]
      exact hmq

lemma pyParseFloat_decRepr (q : ℚ) (h : ∃ m, q.den ∣ 10 ^ m) :
    pyParseFloat (decRepr q) = some (PyFloat.finite q) := by
  rcases lt_or_le q 0 with hneg | hpos
  · obtain ⟨D1, D2, hD, h1, h2, hd1, hd2, hval⟩ :=
      decReprPos_spec (-q) (by linarith) (by rwa [Rat.den_neg_eq_den])
    unfold decRepr
    rw [if_pos hneg]
    unfold pyParseFloat
    rw [show (String.mk ('-' :: decReprPos (-q))).data = '-' :: decReprPos (-q)
      from rfl, hD]
    have hstrip : pyStripWs ('-' :: (D1 ++ '.' :: D2)) =
        '-' :: (D1 ++ '.' :: D2) := by
      apply pyStripWs_eq_self
      intro c hc
      rcases List.mem_cons.mp hc with rfl | hc
      · decide
      · rcases List.mem_append.mp hc with hc | hc
        · exact isPyWs_false_of_digit c (hd1 c hc)
        · rcases List.mem_cons.mp hc with rfl | hc
          · decide
          · exact isPyWs_false_of_digit c (hd2 c hc)
    rw [hstrip]
    have hcore : pyParseFloatCore ('-' :: (D1 ++ '.' :: D2)) =
        parseSigned true (D1 ++ '.' :: D2) := by
      simp [pyParseFloatCore]
    rw [hcore]
    unfold parseSigned
    rw [parseSpecial_none_of_dot _ (by simp),
      parseNumeric_digits D1 D2 h1 h2 hd1 hd2]
    simp [hval]
  · obtain ⟨D1, D2, hD, h1, h2, hd1, hd2, hval⟩ := decReprPos_spec q hpos h
    unfold decRepr
    rw [if_neg (not_lt.mpr hpos)]
    unfold pyParseFloat
    rw [show (String.mk (decReprPos q)).data = decReprPos q from rfl, hD]
    have hstrip : pyStripWs (D1 ++ '.' :: D2) = D1 ++ '.' :: D2 := by
      apply pyStripWs_eq_self
      intro c hc
      rcases List.mem_append.mp hc with hc | hc
      · exact isPyWs_false_of_digit c (hd1 c hc)
      · rcases List.mem_cons.mp hc with rfl | hc
        · decide
        · exact isPyWs_false_of_digit c (hd2 c hc)
    rw [hstrip, pyParseFloatCore_digits D1 D2 h1 h2 hd1 hd2, hval]

lemma to_float_eText (v : PyFloat) (h : goodVal v) : to_float (eText v) = v := by
  cases v with
  | finite q =>
    by_cases hq : q = 0
    · subst hq
      decide
    · have hne : ¬PyFloat.finite q = PyFloat.finite 0 := by simp [hq]
      rw [eText, if_neg hne]
      unfold to_float
      rw [show pyRepr (PyFloat.finite q) = decRepr q from rfl,
        pyParseFloat_decRepr q h]
  | posInf => decide
  | negInf => decide
  | nan => decide

/-! ## Helper lemmas: the Row Store -/

/-- A snapshot triple whose components the parser could have produced. -/
def goodTriple (t : Triple) : Prop := goodVal t.1 ∧ goodVal t.2.1 ∧ goodVal t.2.2

lemma toFloat3_good (r : EntryRow) : goodTriple (toFloat3 r) :=
  ⟨to_float_good _, to_float_good _, to_float_good _⟩

lemma values_good (st : Store) : ∀ t ∈ st.values, goodTriple t := by
  intro t ht
  obtain ⟨p, _, rfl⟩ := List.mem_map.mp ht
  exact toFloat3_good p.2

/-- Invariant of stores built by additions only: the keys are `0..n-1` in
order (what `id = len(storage)` silently relies on). -/
def keysNatural (st : Store) : Prop :=
  st.storage.map Prod.fst = List.range st.storage.length

lemma keysNatural_empty : keysNatural Store.empty := rfl

lemma add_storage (st : Store) (r : EntryRow) (h : keysNatural st) :
    (st.add r).1.storage = st.storage ++ [(st.storage.length, r)] := by
  show dictInsert st.storage st.storage.length r = _
  unfold dictInsert
  rw [if_neg]
  intro hany
  rw [List.any_eq_true] at hany
  obtain ⟨p, hp, hpk⟩ := hany
  have hpk2 : p.1 = st.storage.length := by simpa using hpk
  have hmem : st.storage.length ∈ st.storage.map Prod.fst :=
    List.mem_map.mpr ⟨p, hp, hpk2⟩
  rw [h] at hmem
  exact absurd (List.mem_range.mp hmem) (lt_irrefl _)

lemma add_keysNatural (st : Store) (r : EntryRow) (h : keysNatural st) :
    keysNatural (st.add r).1 := by
  unfold keysNatural
  rw [add_storage st r h, List.map_append, List.length_append, h]
  simp [List.range_succ]

lemma add_values (st : Store) (r : EntryRow) (h : keysNatural st) :
    (st.add r).1.values = st.values ++ [toFloat3 r] := by
  unfold Store.values
  rw [add_storage st r h, List.map_append]
  rfl

lemma load_row_triple (st : Store) (t : Triple) (hg : goodTriple t)
    (h : keysNatural st) :
    (load_row st t.toList).values = st.values ++ [t] ∧
      keysNatural (load_row st t.toList) := by
  obtain ⟨a, b, c⟩ := t
  obtain ⟨ha, hb, hc⟩ := hg
  have hlr : load_row st [a, b, c] =
      (st.add (eText a, eText b, eText c)).1 := rfl
  show (load_row st [a, b, c]).values = _ ∧ keysNatural (load_row st [a, b, c])
  rw [hlr]
  refine ⟨?_, add_keysNatural st _ h⟩
  rw [add_values st _ h]
  have h3 : toFloat3 (eText a, eText b, eText c) = (a, b, c) := by
    unfold toFloat3
    simp only []
    rw [to_float_eText a ha, to_float_eText b hb, to_float_eText c hc]
  rw [h3]

lemma foldl_load_rows (vals : List Triple) (hg : ∀ t ∈ vals, goodTriple t) :
    ∀ acc : Store, keysNatural acc →
      ((vals.map Triple.toList).foldl load_row acc).values = acc.values ++ vals ∧
        keysNatural ((vals.map Triple.toList).foldl load_row acc) := by
  induction vals with
  | nil =>
    intro acc hacc
    exact ⟨by simp, hacc⟩
  | cons t ts ih =>
    intro acc hacc
    have h1 := load_row_triple acc t (hg t (List.mem_cons_self t ts)) hacc
    simp only [List.map_cons, List.foldl_cons]
    have ih2 := ih (fun x hx => hg x (List.mem_cons_of_mem _ hx))
      (load_row acc t.toList) h1.2
    rw [ih2.1, h1.1]
    exact ⟨by simp, ih2.2⟩

/-! ## Helper lemmas: loading and truncation -/

lemma pyTrunc_intCast (z : ℤ) : pyTrunc (z : ℚ) = z := by
  unfold pyTrunc
  split
  · exact Int.floor_intCast z
  · exact Int.ceil_intCast z

lemma UI_load_save (st : Store) (uid u0 : ℤ) :
    UI_load Store.empty u0 (some ((UI_save st uid).map Triple.toList)) =
      PyResult.ok ((st.values.map Triple.toList).foldl load_row Store.empty,
        pyTrunc (uid : ℚ)) := rfl

/-! ## Helper lemmas: the calculator on finite rows -/

lemma UI_calc_finite_go (rows : List (ℚ × ℚ × ℚ)) :
    ∀ a : ℚ,
      (rows.map (fun r => (PyFloat.finite r.1, PyFloat.finite r.2.1,
        PyFloat.finite r.2.2))).foldl
        (fun result row => result.add ((row.1.mul row.2.1).mul row.2.2))
        (PyFloat.finite a) =
      PyFloat.finite (a + (rows.map (fun r => r.1 * r.2.1 * r.2.2)).sum) := by
  induction rows with
  | nil => intro a; simp
  | cons r ts ih =>
    intro a
    simp only [List.map_cons, List.foldl_cons, List.sum_cons]
    have hstep : (PyFloat.finite a).add
        (((PyFloat.finite r.1).mul (PyFloat.finite r.2.1)).mul
          (PyFloat.finite r.2.2)) =
        PyFloat.finite (a + r.1 * r.2.1 * r.2.2) := rfl
    rw [hstep, ih]
    congr 1
    ring

/-! ## Helper lemmas: evaluating `round(x, 2)` and `str(x)` at inputs -/

lemma roundHalfEven_floor (y : ℚ) : y.num.fdiv (y.den : ℤ) = ⌊y⌋ := by
  rw [Int.fdiv_eq_ediv _ (by positivity), ← Rat.floor_def]

lemma pyRound2_eq_of_lt (x : ℚ) (n : ℤ) (hfl : ⌊x * 100⌋ = n)
    (h2 : x * 100 - n < 1 / 2) : pyRound2 x = (n : ℚ) / 100 := by
  unfold pyRound2 roundHalfEven
  rw [roundHalfEven_floor, hfl, if_pos h2]

lemma pyRound2_eq_of_gt (x : ℚ) (n : ℤ) (hfl : ⌊x * 100⌋ = n)
    (h2 : 1 / 2 < x * 100 - n) : pyRound2 x = ((n + 1 : ℤ) : ℚ) / 100 := by
  unfold pyRound2 roundHalfEven
  rw [roundHalfEven_floor, hfl, if_neg (by linarith), if_pos h2]

lemma denDvdPow_of_den_one (q : ℚ) (h : q.den = 1) : denDvdPow q :=
  ⟨0, by simp [h]⟩

lemma decRepr_nat (n : ℕ) : decRepr (n : ℚ) =
    String.mk (natDigits n ++ ['.', '0']) := by
  have hden : ((n : ℚ)).den = 1 := Rat.den_natCast n
  have hk : decExponent ((n : ℚ)).den = 0 := by rw [hden]; decide
  unfold decRepr
  rw [if_neg (not_lt.mpr (by positivity)), decReprPos_if_zero _ hk, hk]
  have hval : ((n : ℚ) * 10 ^ (0 : ℕ)).num.toNat = n := by
    rw [pow_zero, mul_one, Rat.num_natCast, Int.toNat_natCast]
  rw [hval]

lemma decRepr_eval_pos (q : ℚ) (k m : ℕ) (hq0 : ¬q < 0)
    (hk : decExponent q.den = k) (hm : (q * 10 ^ k).num.toNat = m)
    (hk0 : ¬k = 0) :
    decRepr q = String.mk
      (((natDigitsAux m ++
          List.replicate (k + 1 - (natDigitsAux m).length) '0').drop k).reverse ++
        '.' :: ((natDigitsAux m ++
          List.replicate (k + 1 - (natDigitsAux m).length) '0').take k).reverse) := by
  unfold decRepr
  rw [if_neg hq0, decReprPos_if_pos q (by rw [hk]; exact hk0), hk, hm]

/-! ## Helper lemmas: the validation regex -/

lemma matchD1_iff (cs : List Char) :
    matchD1 cs = true ↔ ∃ a b, cs = a ++ b ∧ a ≠ [] ∧
      (∀ c ∈ a, c.isDigit = true) ∧
      (b = [] ∨ ∃ b2, b = '.' :: b2 ∧ ∀ c ∈ b2, c.isDigit = true) := by
  constructor
  · intro h
    unfold matchD1 at h
    rw [Bool.and_eq_true] at h
    obtain ⟨hne, hrest⟩ := h
    refine ⟨cs.takeWhile Char.isDigit, cs.dropWhile Char.isDigit,
      (List.takeWhile_append_dropWhile Char.isDigit cs).symm, ?_,
      fun c hc => List.mem_takeWhile_imp hc, ?_⟩
    · intro he
      rw [he] at hne
      simp at hne
    · cases hd : cs.dropWhile Char.isDigit with
      | nil => exact Or.inl rfl
      | cons c r =>
        rw [hd] at hrest
        have hr2 : (decide (c = '.') && r.all Char.isDigit) = true := hrest
        rw [Bool.and_eq_true, decide_eq_true_eq] at hr2
        exact Or.inr ⟨r, by rw [hr2.1], List.all_eq_true.mp hr2.2⟩
  · rintro ⟨a, b, rfl, hne, hd, hb⟩
    have hta := takeWhile_all_append Char.isDigit a b hd
    rcases hb with rfl | ⟨b2, rfl, hb2⟩
    · have h1 : (a ++ ([] : List Char)).takeWhile Char.isDigit = a := by
        rw [hta.1]
        simp
      have h2 : (a ++ ([] : List Char)).dropWhile Char.isDigit = [] := by
        rw [hta.2]
        simp
      unfold matchD1
      rw [h1, h2]
      simp [hne]
    · have h1 : (a ++ '.' :: b2).takeWhile Char.isDigit = a := by
        rw [hta.1, List.takeWhile_cons]
        simp
      have h2 : (a ++ '.' :: b2).dropWhile Char.isDigit = '.' :: b2 := by
        rw [hta.2, List.dropWhile_cons]
        simp
      unfold matchD1
      rw [h1, h2]
      simp [hne, List.all_eq_true]
      exact hb2

/-! ## Claim theorems -/

/-- Claim C1: the area calculation (`UI._calc`) returns the sum of
`length * width * count` over all rows of the snapshot; the empty snapshot
gives `0.0`, and in particular `totalArea([]) = 0.0`,
`totalArea([(2,3,1)]) = 6.0` and `totalArea([(2,3,1),(1,1,1)]) = 7.0`. -/
theorem totalArea_sum_of_products :
    (∀ rows : List (ℚ × ℚ × ℚ),
      UI_calc (rows.map (fun r => (PyFloat.finite r.1, PyFloat.finite r.2.1,
        PyFloat.finite r.2.2))) =
        PyFloat.finite ((rows.map (fun r => r.1 * r.2.1 * r.2.2)).sum)) ∧
    UI_calc [] = PyFloat.finite 0 ∧
    UI_calc [(PyFloat.finite 2, PyFloat.finite 3, PyFloat.finite 1)] =
      PyFloat.finite 6 ∧
    UI_calc [(PyFloat.finite 2, PyFloat.finite 3, PyFloat.finite 1),
      (PyFloat.finite 1, PyFloat.finite 1, PyFloat.finite 1)] =
      PyFloat.finite 7 := by
  have hgen : ∀ rows : List (ℚ × ℚ × ℚ),
      UI_calc (rows.map (fun r => (PyFloat.finite r.1, PyFloat.finite r.2.1,
        PyFloat.finite r.2.2))) =
        PyFloat.finite ((rows.map (fun r => r.1 * r.2.1 * r.2.2)).sum) := by
    intro rows
    unfold UI_calc
    rw [UI_calc_finite_go rows 0, zero_add]
  refine ⟨hgen, rfl, ?_, ?_⟩
  · rw [show [(PyFloat.finite 2, PyFloat.finite 3, PyFloat.finite 1)] =
      ([((2 : ℚ), (3 : ℚ), (1 : ℚ))]).map (fun r => (PyFloat.finite r.1,
        PyFloat.finite r.2.1, PyFloat.finite r.2.2)) from rfl, hgen]
    norm_num
  · rw [show [(PyFloat.finite 2, PyFloat.finite 3, PyFloat.finite 1),
      (PyFloat.finite 1, PyFloat.finite 1, PyFloat.finite 1)] =
      ([((2 : ℚ), (3 : ℚ), (1 : ℚ)), ((1 : ℚ), (1 : ℚ), (1 : ℚ))]).map
        (fun r => (PyFloat.finite r.1, PyFloat.finite r.2.1,
          PyFloat.finite r.2.2)) from rfl, hgen]
    norm_num

/-- Claim C2: the unit conversion (`Window._convert_to_feet`) applies the
selected unit's factor — Inches divides by `144`, Centimeters multiplies by
`0.032808399 ** 2` — and rounds the result to two decimal places; in
particular `convert(144, Inches) = 1.0` and `convert(1, Centimeters)`
rounds to `0.0`. -/
theorem convert_applies_unit_factor :
    (∀ q : ℚ, convert_to_feet 0 (PyFloat.finite q) =
      some (PyFloat.finite (pyRound2 (q / 144)))) ∧
    (∀ q : ℚ, convert_to_feet 1 (PyFloat.finite q) =
      some (PyFloat.finite (pyRound2 (q * (32808399 / 10 ^ 9 : ℚ) ^ 2)))) ∧
    convert_to_feet 0 (PyFloat.finite 144) = some (PyFloat.finite 1) ∧
    convert_to_feet 1 (PyFloat.finite 1) = some (PyFloat.finite 0) := by
  have h0 : ∀ q : ℚ, convert_to_feet 0 (PyFloat.finite q) =
      some (PyFloat.finite (pyRound2 (q / 144))) := by
    intro q
    show some (PyFloat.finite (pyRound2 (q / 12 ^ 2))) = _
    norm_num
  have h1 : ∀ q : ℚ, convert_to_feet 1 (PyFloat.finite q) =
      some (PyFloat.finite (pyRound2 (q * (32808399 / 10 ^ 9 : ℚ) ^ 2))) := by
    intro q
    show some (PyFloat.finite (pyRound2 (q * cmFactor ^ 2))) = _
    rfl
  refine ⟨h0, h1, ?_, ?_⟩
  · rw [h0 144]
    have hr : pyRound2 ((144 : ℚ) / 144) = 1 := by
      have h := pyRound2_eq_of_lt ((144 : ℚ) / 144) 100
        (Int.floor_eq_iff.mpr (by norm_num)) (by norm_num)
      rw [h]
      norm_num
    rw [hr]
  · rw [h1 1]
    have hr : pyRound2 ((1 : ℚ) * (32808399 / 10 ^ 9 : ℚ) ^ 2) = 0 := by
      have h := pyRound2_eq_of_lt ((1 : ℚ) * (32808399 / 10 ^ 9 : ℚ) ^ 2) 0
        (Int.floor_eq_iff.mpr (by norm_num)) (by norm_num)
      rw [h]
      norm_num
    rw [hr]

/-- Claim C3: `UI._save` produces the sentinel triple `(-1, -1, unitIndex)`
followed by one triple per row in snapshot order, and `UI._load` of that
document into a fresh store reproduces an identical snapshot and the same
unit index; in particular saving rows `[(12,10,2)]` with unit index 0 and
re-loading yields snapshot `[(12.0,10.0,2.0)]` and unit index 0. -/
theorem save_load_round_trip :
    (∀ (st : Store) (uid : ℤ),
      UI_save st uid = (PyFloat.finite (-1), PyFloat.finite (-1),
        PyFloat.finite (uid : ℚ)) :: st.values) ∧
    (∀ (st : Store) (uid u0 : ℤ), ∃ st2 : Store,
      UI_load Store.empty u0 (some ((UI_save st uid).map Triple.toList)) =
        PyResult.ok (st2, uid) ∧ st2.values = st.values) ∧
    (∃ st2 : Store,
      UI_load Store.empty 0
        (some ((UI_save (Store.empty.add ("12", "10", "2")).1 0).map
          Triple.toList)) = PyResult.ok (st2, 0) ∧
      st2.values = [(PyFloat.finite 12, PyFloat.finite 10, PyFloat.finite 2)]) := by
  have hgen : ∀ (st : Store) (uid u0 : ℤ), ∃ st2 : Store,
      UI_load Store.empty u0 (some ((UI_save st uid).map Triple.toList)) =
        PyResult.ok (st2, uid) ∧ st2.values = st.values := by
    intro st uid u0
    refine ⟨(st.values.map Triple.toList).foldl load_row Store.empty, ?_, ?_⟩
    · rw [UI_load_save st uid u0, pyTrunc_intCast]
    · have hf := foldl_load_rows st.values (values_good st) Store.empty
        keysNatural_empty
      rw [hf.1]
      rfl
  refine ⟨fun st uid => rfl, hgen, ?_⟩
  obtain ⟨st2, hload, hvals⟩ := hgen (Store.empty.add ("12", "10", "2")).1 0 0
  refine ⟨st2, hload, ?_⟩
  rw [hvals]
  decide

/-- Claim C4 (code bug): loading a file whose contents unpickle but do not
form a well-formed document — here a pickled empty list — clears the Row
Store before the sentinel access `data[0]` raises, so the prior store state
is *not* left unchanged; only a failure of `open`/`pickle.load` itself
(modelled by `none`) leaves the store untouched. -/
theorem load_malformed_document_clears_store :
    UI_load (Store.empty.add ("2", "3", "1")).1 0 (some []) =
      PyResult.raised (Store.empty, 0) ∧
    ¬(Store.empty.add ("2", "3", "1")).1.values = Store.empty.values ∧
    UI_load (Store.empty.add ("2", "3", "1")).1 0 none =
      PyResult.ok ((Store.empty.add ("2", "3", "1")).1, 0) := by decide

/-- Claim C5 (code bug): after `add A; add B; remove handle 0`, the next
`add` computes `id = len(storage) = 1`, which is already the identifier of
row B — the identifier is reused and row B's entry is overwritten, against
the stated uniqueness invariant. -/
theorem store_id_reused_after_remove :
    (Store.empty.add ("a", "a", "a")).2 = 0 ∧
    ((Store.empty.add ("a", "a", "a")).1.add ("b", "b", "b")).2 = 1 ∧
    ((((Store.empty.add ("a", "a", "a")).1.add ("b", "b", "b")).1.removeRow 0).storage.map
      Prod.fst) = [1] ∧
    ((((Store.empty.add ("a", "a", "a")).1.add ("b", "b", "b")).1.removeRow 0).add
      ("c", "c", "c")).2 = 1 ∧
    ((((Store.empty.add ("a", "a", "a")).1.add ("b", "b", "b")).1.removeRow 0).add
      ("c", "c", "c")).1.storage = [(1, ("c", "c", "c"))] := by decide

/-- Claim C6 (code bug): in the session `add A; add B; remove 0; add C`
there are 3 adds and 1 successful remove, yet the snapshot length is 1, not
2, because the third add overwrites row B instead of inserting; removing a
non-existent handle does leave the store unchanged. -/
theorem snapshot_length_mismatch_after_reuse :
    ((((Store.empty.add ("a", "a", "a")).1.add ("b", "b", "b")).1.removeRow 0).add
      ("c", "c", "c")).1.values.length = 1 ∧
    ¬((((Store.empty.add ("a", "a", "a")).1.add ("b", "b", "b")).1.removeRow 0).add
      ("c", "c", "c")).1.values.length = 3 - 1 ∧
    (Store.empty.add ("a", "a", "a")).1.removeRow 5 =
      (Store.empty.add ("a", "a", "a")).1 := by decide

/-- Claim C7: `Store.to_float` is total (never raises): it parses the field
text with `float()` and substitutes `0.0` when parsing fails; in particular
`"abc"` and `""` snapshot as `0.0`, `"3.5"` snapshots as `3.5`, and a
snapshot of a store holding these texts is `[(0.0, 0.0, 3.5)]`. -/
theorem to_float_total_with_default :
    (∀ s : String, to_float s = (pyParseFloat s).getD (PyFloat.finite 0)) ∧
    to_float "abc" = PyFloat.finite 0 ∧
    to_float "" = PyFloat.finite 0 ∧
    to_float "3.5" = PyFloat.finite (7 / 2) ∧
    (Store.empty.add ("abc", "", "3.5")).1.values =
      [(PyFloat.finite 0, PyFloat.finite 0, PyFloat.finite (7 / 2))] := by
  have h35 : to_float "3.5" = PyFloat.finite (7 / 2) := by
    have hps : pyStripWs (String.data "3.5") = ['3'] ++ '.' :: ['5'] := by decide
    unfold to_float pyParseFloat
    rw [hps, pyParseFloatCore_digits ['3'] ['5'] (by decide) (by decide)
      (by decide) (by decide)]
    rw [show digitsVal (['3'] ++ ['5']) = 35 from by decide]
    norm_num
  refine ⟨?_, by decide, by decide, h35, ?_⟩
  · intro s
    unfold to_float
    cases pyParseFloat s <;> rfl
  · rw [add_values Store.empty _ keysNatural_empty]
    unfold toFloat3
    rw [show to_float "abc" = PyFloat.finite 0 from by decide,
      show to_float "" = PyFloat.finite 0 from by decide, h35]
    rfl

/-- Claim C8, counterexample: for the snapshot `[(2,3,1),(4,5,1)]` the area
calculation returns `26.0`, not the `23.0` stated in the specification. -/
theorem end_to_end_total_is_26_not_23 :
    UI_calc [(PyFloat.finite 2, PyFloat.finite 3, PyFloat.finite 1),
      (PyFloat.finite 4, PyFloat.finite 5, PyFloat.finite 1)] =
      PyFloat.finite 26 ∧
    ¬UI_calc [(PyFloat.finite 2, PyFloat.finite 3, PyFloat.finite 1),
      (PyFloat.finite 4, PyFloat.finite 5, PyFloat.finite 1)] =
      PyFloat.finite 23 := by
  have h26 : UI_calc [(PyFloat.finite 2, PyFloat.finite 3, PyFloat.finite 1),
      (PyFloat.finite 4, PyFloat.finite 5, PyFloat.finite 1)] =
      PyFloat.finite 26 := by
    unfold UI_calc
    rw [show ([(PyFloat.finite 2, PyFloat.finite 3, PyFloat.finite 1),
      (PyFloat.finite 4, PyFloat.finite 5, PyFloat.finite 1)] : List Triple) =
      ([((2 : ℚ), (3 : ℚ), (1 : ℚ)), ((4 : ℚ), (5 : ℚ), (1 : ℚ))]).map
        (fun r => (PyFloat.finite r.1, PyFloat.finite r.2.1,
          PyFloat.finite r.2.2)) from rfl]
    rw [UI_calc_finite_go]
    norm_num
  refine ⟨h26, ?_⟩
  rw [h26]
  intro heq
  have : (26 : ℚ) = 23 := by injection heq
  norm_num at this

/-- Claim C8, amended: for the store holding rows `(2,3,1)` and `(4,5,1)`
with unit Centimeters, the snapshot is the two rows in order, `totalArea`
returns `26.0`, `convert(26.0, Centimeters)` rounds to `0.03`, and
`describe` returns `"Square Centimeter: 26.0, Square Feets: 0.03"`. -/
theorem end_to_end_scenario_amended :
    (load_row (load_row Store.empty
        [PyFloat.finite 2, PyFloat.finite 3, PyFloat.finite 1])
        [PyFloat.finite 4, PyFloat.finite 5, PyFloat.finite 1]).values =
      [(PyFloat.finite 2, PyFloat.finite 3, PyFloat.finite 1),
        (PyFloat.finite 4, PyFloat.finite 5, PyFloat.finite 1)] ∧
    UI_calc [(PyFloat.finite 2, PyFloat.finite 3, PyFloat.finite 1),
      (PyFloat.finite 4, PyFloat.finite 5, PyFloat.finite 1)] =
      PyFloat.finite 26 ∧
    convert_to_feet 1 (PyFloat.finite 26) = some (PyFloat.finite (3 / 100)) ∧
    load_result 1 (PyFloat.finite 26) =
      some "Square Centimeter: 26.0, Square Feets: 0.03" := by
  have hg1 : goodTriple (PyFloat.finite 2, PyFloat.finite 3, PyFloat.finite 1) :=
    ⟨denDvdPow_of_den_one 2 rfl, denDvdPow_of_den_one 3 rfl,
      denDvdPow_of_den_one 1 rfl⟩
  have hg2 : goodTriple (PyFloat.finite 4, PyFloat.finite 5, PyFloat.finite 1) :=
    ⟨denDvdPow_of_den_one 4 rfl, denDvdPow_of_den_one 5 rfl,
      denDvdPow_of_den_one 1 rfl⟩
  have ha := load_row_triple Store.empty
    (PyFloat.finite 2, PyFloat.finite 3, PyFloat.finite 1) hg1 keysNatural_empty
  have hb := load_row_triple (load_row Store.empty
      (Triple.toList (PyFloat.finite 2, PyFloat.finite 3, PyFloat.finite 1)))
    (PyFloat.finite 4, PyFloat.finite 5, PyFloat.finite 1) hg2 ha.2
  have hround : pyRound2 ((26 : ℚ) * cmFactor ^ 2) = 3 / 100 := by
    have h := pyRound2_eq_of_gt ((26 : ℚ) * cmFactor ^ 2) 2
      (Int.floor_eq_iff.mpr (by norm_num [cmFactor])) (by norm_num [cmFactor])
    rw [h]
    norm_num
  refine ⟨?_, ?_, ?_, ?_⟩
  · show (load_row (load_row Store.empty
      (Triple.toList (PyFloat.finite 2, PyFloat.finite 3, PyFloat.finite 1)))
      (Triple.toList (PyFloat.finite 4, PyFloat.finite 5, PyFloat.finite 1))).values = _
    rw [hb.1, ha.1]
    rfl
  · unfold UI_calc
    rw [show ([(PyFloat.finite 2, PyFloat.finite 3, PyFloat.finite 1),
      (PyFloat.finite 4, PyFloat.finite 5, PyFloat.finite 1)] : List Triple) =
      ([((2 : ℚ), (3 : ℚ), (1 : ℚ)), ((4 : ℚ), (5 : ℚ), (1 : ℚ))]).map
        (fun r => (PyFloat.finite r.1, PyFloat.finite r.2.1,
          PyFloat.finite r.2.2)) from rfl]
    rw [UI_calc_finite_go]
    norm_num
  · show some (PyFloat.finite (pyRound2 ((26 : ℚ) * cmFactor ^ 2))) = _
    rw [hround]
  · show some ("Square " ++ "Centimeter" ++ ": " ++ pyRepr (PyFloat.finite 26) ++
      ", Square Feets: " ++
      pyRepr (pyRound2F ((PyFloat.finite 26).mulQ (cmFactor ^ 2)))) = _
    rw [show pyRound2F ((PyFloat.finite 26).mulQ (cmFactor ^ 2)) =
      PyFloat.finite (pyRound2 ((26 : ℚ) * cmFactor ^ 2)) from rfl, hround]
    have hq : (3 / 100 : ℚ) = Rat.mk' 3 100 := by
      rw [Rat.mk'_eq_divInt, Rat.divInt_eq_div]
      norm_num
    have hden : ((3 / 100 : ℚ)).den = 100 := by rw [hq]
    have hk : decExponent ((3 / 100 : ℚ)).den = 2 := by rw [hden]; decide
    have hval : ((3 / 100 : ℚ) * 10 ^ 2).num.toNat = 3 := by
      rw [show ((3 / 100 : ℚ) * 10 ^ 2) = (3 : ℚ) from by norm_num]
      rfl
    have h003 : pyRepr (PyFloat.finite (3 / 100)) =
        String.mk ['0', '.', '0', '3'] := by
      show decRepr (3 / 100 : ℚ) = _
      rw [decRepr_eval_pos (3 / 100 : ℚ) 2 3 (by norm_num) hk hval (by decide)]
      decide
    have h26 : pyRepr (PyFloat.finite 26) = String.mk ['2', '6', '.', '0'] := by
      show decRepr (26 : ℚ) = _
      rw [show (26 : ℚ) = ((26 : ℕ) : ℚ) from by norm_num, decRepr_nat 26]
      decide
    rw [h26, h003]
    decide

/-- Claim C9, counterexample: typing `'.'` into an empty field produces
`"."`, which matches the specification pattern `\d*\.?\d*`, yet
`_validate_entry` rejects it; likewise `".5"` (previous text `"."`, key
`"5"`) matches the pattern but is rejected, because the code requires a
digit before the decimal point and digits as the first keystroke. -/
theorem validate_entry_pattern_counterexample :
    validate_entry "." "" "." = false ∧ specPattern (String.data ".") = true ∧
    validate_entry ".5" "." "5" = false ∧
    specPattern (String.data ".5") = true := by decide

/-- Claim C9, amended: `_validate_entry` accepts a keystroke iff the
resulting text is empty, or the previous text was empty and the inserted
text consists solely of digits, or the previous text was nonempty, the
inserted text is a digit string or a single `"."`, and the resulting text
matches `\d+\.?\d*` (at least one digit before an optional single decimal
point) — so `"."` as first character and any text starting with `"."` are
rejected even though the specification pattern `\d*\.?\d*` allows them. -/
theorem validate_entry_characterisation :
    ∀ new_val val key : String,
      validate_entry new_val val key = true ↔
        (new_val = "" ∨
          (val = "" ∧ new_val ≠ "" ∧ pyIsdigit key = true) ∨
          (val ≠ "" ∧ new_val ≠ "" ∧ (pyIsdigit key = true ∨ key = ".") ∧
            ∃ a b, new_val.data = a ++ b ∧ a ≠ [] ∧
              (∀ c ∈ a, c.isDigit = true) ∧
              (b = [] ∨ ∃ b2, b = '.' :: b2 ∧ ∀ c ∈ b2, c.isDigit = true))) := by
  intro new_val val key
  unfold validate_entry
  by_cases h1 : new_val = ""
  · rw [if_pos h1]
    constructor
    · intro _
      exact Or.inl h1
    · intro _
      rfl
  · rw [if_neg h1]
    by_cases h2 : val = ""
    · rw [if_pos h2]
      constructor
      · intro hk
        exact Or.inr (Or.inl ⟨h2, h1, hk⟩)
      · rintro (hc | ⟨_, _, hk⟩ | ⟨hv, _⟩)
        · exact absurd hc h1
        · exact hk
        · exact absurd h2 hv
    · rw [if_neg h2]
      by_cases h3 : (pyIsdigit key || decide (key = ".")) = true
      · rw [if_neg (by simp [h3])]
        constructor
        · intro hm
          exact Or.inr (Or.inr ⟨h2, h1, by simpa using h3,
            (matchD1_iff _).mp hm⟩)
        · rintro (hc | ⟨hv, _, _⟩ | ⟨_, _, _, hdec⟩)
          · exact absurd hc h1
          · exact absurd hv h2
          · exact (matchD1_iff _).mpr hdec
      · rw [if_pos (by simpa using h3)]
        have h3x : ¬(pyIsdigit key = true ∨ key = ".") := by
          intro hor
          exact h3 (by simpa using hor)
        constructor
        · intro hf
          exact absurd hf (by simp)
        · rintro (hc | ⟨hv, _⟩ | ⟨_, _, hd, _⟩)
          · exact absurd hc h1
          · exact absurd hv h2
          · exact absurd hd h3x

/-- Claim C10: the parsing done at snapshot time accepts everything
Python's `float()` accepts, not only the UI keystroke pattern: `"-3"`,
`"1e5"`, `" 2 "`, `"inf"` and `"nan"` all parse to their float values
rather than being substituted with `0.0`, so a snapshot can contain
negative or non-finite numbers when the stored text bypasses keystroke
validation. -/
theorem to_float_accepts_full_float_syntax :
    to_float "-3" = PyFloat.finite (-3) ∧
    to_float "1e5" = PyFloat.finite 100000 ∧
    to_float " 2 " = PyFloat.finite 2 ∧
    to_float "inf" = PyFloat.posInf ∧
    to_float "nan" = PyFloat.nan ∧
    (Store.empty.add ("-3", "inf", "nan")).1.values =
      [(PyFloat.finite (-3), PyFloat.posInf, PyFloat.nan)] := by
  have h1e5 : to_float "1e5" = PyFloat.finite 100000 := by
    have h : to_float "1e5" = PyFloat.finite
        ((digitsVal ['1'] : ℚ) * (10 : ℚ) ^ ((digitsVal ['5'] : ℕ) : ℤ)) := rfl
    rw [h, show digitsVal ['1'] = 1 from by decide,
      show digitsVal ['5'] = 5 from by decide]
    rw [zpow_natCast]
    norm_num
  exact ⟨by decide, h1e5, by decide, by decide, by decide, by decide⟩

end Area
